import Mathlib

/-!
Verification development for the adaptive traffic-control layer of the
TechSync repository: the analytics store, the rate-limiter configurations
(`backend/middleware/rateLimitAnalytics.js`, `backend/middleware/smartRateLimit.js`,
`backend/middleware/stabilityMiddleware.js`), the memory-pressure-aware dynamic
limits, and the bounded admission queue.

Modelling conventions:
* times are natural numbers of milliseconds (JS `Date.now()`);
* the memory monitor's `isUnderPressure` flag is passed as an explicit `Bool`
  parameter wherever the source reads the `memoryMonitor` singleton;
* JS `Map` objects are association lists with in-place overwrite on `set`;
* the fixed-window counting core of the `express-rate-limit` dependency
  (a library, not part of the repository source) is modelled from the spec;
  everything layered on it (`max`, `skip`, `handler`, `message`) is translated
  from the repository source.
-/

/-- Character-list version of JS `String.startsWith`. -/
def chListStarts : List Char → List Char → Bool
  | _, [] => true
  | [], _ :: _ => false
  | c :: cs, d :: ds => c == d && chListStarts cs ds

/-- Does the pattern occur anywhere in the list (JS `String.includes`)? -/
def chListHas (pat : List Char) : List Char → Bool
  | [] => pat.isEmpty
  | c :: cs => chListStarts (c :: cs) pat || chListHas pat cs

/-- JS `s.includes(pat)`. -/
def includesStr (s pat : String) : Bool :=
  chListHas pat.toList s.toList

/-- JS `s.startsWith(pat)`. -/
def strStarts (s pat : String) : Bool :=
  chListStarts s.toList pat.toList

/-- JS `s.substring(n)` (code-unit drop; headers here are ASCII). -/
def strDrop (s : String) (n : Nat) : String :=
  String.mk (s.toList.drop n)

/-- JS `x || d` for a possibly-absent numeric option (`options.max || 100`):
`0`, like `undefined`, falls back to the default. -/
def jsOrNat (x : Option Nat) (d : Nat) : Nat :=
  match x with
  | none => d
  | some m => if m = 0 then d else m

/-- Is the request path an admin/analytics path
(`req.path.includes('/admin') || req.path.includes('/analytics')`)? -/
def isAdminReqPath (path : String) : Bool :=
  includesStr path "/admin" || includesStr path "/analytics"

/-- The dynamic `max` function of `createStabilityRateLimit`
(stabilityMiddleware.js): start from `options.max || 100`, halve (with
`Math.floor`) under memory pressure, then for admin/analytics paths take
`Math.max(maxRequests * 4, 200)`. -/
def stabilityMax (optMax : Option Nat) (pressure : Bool) (path : String) : Nat :=
  let maxRequests := jsOrNat optMax 100
  let maxRequests := if pressure then maxRequests / 2 else maxRequests
  if isAdminReqPath path then
    Nat.max (maxRequests * 4) 200
  else
    maxRequests

/-- The `skip` predicate of `createStabilityRateLimit`: only the health-check
paths are skipped. -/
def stabilitySkip (path : String) : Bool :=
  path == "/health" || path == "/api/health"

example : stabilityMax (some 1000) true "/api/admin/metrics" = 2000 := by decide
example : stabilityMax (some 200) true "/api/projects" = 100 := by decide
example : stabilitySkip "/api/auth/logout" = false := by decide
example : strStarts "Bearer abc" "Bearer " = true := by decide
example : strDrop "Bearer abc" 7 = "abc" := by decide

/-- Per-key fixed-window rate-limit state: window start time and the number of
requests counted in the current window (`RateLimitState` of the spec). -/
structure WindowState where
  windowStart : Nat
  count : Nat
deriving DecidableEq

/-- Modelled from the spec: the fixed-window counter of the `express-rate-limit`
library (a dependency, not present under `src/`): "reset the counter when
`now - windowStart ≥ windowMs`; otherwise increment and compare against the
effective max" (spec section 4.3). A request is admitted while the incremented
count stays at or below the maximum. -/
def windowCount (windowMs now : Nat) (st : WindowState) : WindowState :=
  let st := if windowMs ≤ now - st.windowStart then WindowState.mk now 0 else st
  WindowState.mk st.windowStart (st.count + 1)

/-- Outcome of one pass through a rate limiter; `β` is the shape of the
rejection body the limiter is configured with. -/
inductive HitOutcome (β : Type) where
  | admitted : HitOutcome β
  | rejected : β → HitOutcome β
deriving DecidableEq

/-- Modelled from the spec: one counted request against a fixed window with
limit `maxReq`; a rejection carries the configured body. -/
def windowHit {β : Type} (body : β) (windowMs maxReq now : Nat)
    (st : WindowState) : WindowState × HitOutcome β :=
  let st := windowCount windowMs now st
  if st.count ≤ maxReq then (st, HitOutcome.admitted) else (st, HitOutcome.rejected body)

/-- Configuration passed to a limiter factory: `windowMs`, `max` and the
configured human-readable message. -/
structure LimiterOptions where
  windowMs : Nat
  max : Nat
  message : Option String
deriving DecidableEq

/-- The rejection response of `createAnalyticsLimiter`'s `handler`
(rateLimitAnalytics.js lines 201-221): `res.status(429).json(...)` with the
configured message (or the default), `retryAfter: Math.round(options.windowMs / 1000)`,
`limit: options.max` and `windowMs: options.windowMs`. -/
structure AnalyticsRejectBody where
  status : Nat
  success : Bool
  message : String
  retryAfter : Nat
  limit : Nat
  windowMs : Nat
deriving DecidableEq

/-- The body built by `createAnalyticsLimiter`'s handler; `Math.round(w / 1000)`
on a natural `w` is `(w + 500) / 1000`. -/
def analyticsBody (o : LimiterOptions) : AnalyticsRejectBody :=
  { status := 429
    success := false
    message := o.message.getD "Too many requests, please try again later."
    retryAfter := (o.windowMs + 500) / 1000
    limit := o.max
    windowMs := o.windowMs }

/-- The `skip` callback of `createAnalyticsLimiter` logs every request as
allowed and then returns `false`: no request is ever skipped. -/
def analyticsSkip (_path : String) : Bool :=
  false

/-- One request through a limiter built by `createAnalyticsLimiter` (its `max`
is static and its `skip` never skips). -/
def analyticsHit (o : LimiterOptions) (now : Nat) (st : WindowState) :
    WindowState × HitOutcome AnalyticsRejectBody :=
  windowHit (analyticsBody o) o.windowMs o.max now st

/-- A sequence of requests, given by their arrival times, through an
analytics limiter. -/
def runHits (o : LimiterOptions) : List Nat → WindowState →
    WindowState × List (HitOutcome AnalyticsRejectBody)
  | [], st => (st, [])
  | t :: ts, st =>
    let r := analyticsHit o t st
    let rest := runHits o ts r.1
    (rest.1, r.2 :: rest.2)

/-- Is the outcome an admission? -/
def isOkOutcome {β : Type} : HitOutcome β → Bool
  | HitOutcome.admitted => true
  | HitOutcome.rejected _ => false

/-- Number of admitted outcomes in a run. -/
def countAdmitted {β : Type} (outs : List (HitOutcome β)) : Nat :=
  (outs.filter isOkOutcome).length

/-- Number of rejected outcomes in a run. -/
def countRejected {β : Type} (outs : List (HitOutcome β)) : Nat :=
  (outs.filter (fun x => !isOkOutcome x)).length

/-- Seconds remaining until a fixed window resets. -/
def remainingSeconds (windowStart windowMs now : Nat) : Nat :=
  (windowStart + windowMs - now) / 1000

/-- The `auth` limiter configuration of `limiters` in rateLimitAnalytics.js:
15-minute window, 5 attempts. -/
def limitersAuth : LimiterOptions :=
  { windowMs := 15 * 60 * 1000
    max := 5
    message := some "Too many authentication attempts. Please try again later." }

/-- Result of verifying a JWT credential: a decoded payload carrying an
optional `role` claim, or a verification failure (`jwt.verify` threw). -/
inductive VerifyResult where
  | ok : Option String → VerifyResult
  | fail : VerifyResult
deriving DecidableEq

/-- The `skip` callback of `createSmartLimiter` (smartRateLimit.js): extract a
bearer token; absent/malformed headers and failed verification apply normal
rate limiting (`false`); a token verified with role `admin` or `moderator`
skips rate limiting (`true`). -/
def smartSkip (authHeader : Option String) (verify : String → VerifyResult) : Bool :=
  match authHeader with
  | none => false
  | some h =>
    if !strStarts h "Bearer " then false
    else
      let token := strDrop h 7
      if token = "" then false
      else
        match verify token with
        | VerifyResult.ok role =>
          if role = some "admin" || role = some "moderator" then true else false
        | VerifyResult.fail => false

/-- The rejection body configured by `createSmartLimiter`: success flag,
message and `retryAfter: Math.ceil(options.windowMs / 1000)`. -/
structure SmartRejectBody where
  success : Bool
  message : String
  retryAfter : Nat
deriving DecidableEq

/-- The message object `createSmartLimiter` installs (it is written after the
options spread, so it always has this shape); `Math.ceil(w / 1000)` on a
natural `w` is `(w + 999) / 1000`. -/
def smartBody (o : LimiterOptions) : SmartRejectBody :=
  { success := false
    message := "Too many requests. Please wait before trying again."
    retryAfter := (o.windowMs + 999) / 1000 }

/-- One request through a limiter built by `createSmartLimiter`: a skipped
request is admitted without touching the window counter; otherwise it is a
normal counted request. -/
def smartHit (o : LimiterOptions) (verify : String → VerifyResult)
    (authHeader : Option String) (now : Nat) (st : WindowState) :
    WindowState × HitOutcome SmartRejectBody :=
  if smartSkip authHeader verify then (st, HitOutcome.admitted)
  else windowHit (smartBody o) o.windowMs o.max now st

/-- A sequence of requests (auth header and arrival time) through a smart
limiter. -/
def runSmart (o : LimiterOptions) (verify : String → VerifyResult) :
    List (Option String × Nat) → WindowState →
    WindowState × List (HitOutcome SmartRejectBody)
  | [], st => (st, [])
  | q :: qs, st =>
    let r := smartHit o verify q.1 q.2 st
    let rest := runSmart o verify qs r.1
    (rest.1, r.2 :: rest.2)

/-- The rejection body of `createStabilityRateLimit`'s `message` callback:
success flag, configured message (or default), `retryAfter: Math.ceil(windowMs/1000)`
and the system status string. -/
structure StabilityRejectBody where
  success : Bool
  message : String
  retryAfter : Nat
  systemStatus : String
deriving DecidableEq

/-- The body built by `createStabilityRateLimit`'s `message` callback. -/
def stabilityBody (msg : Option String) (windowMs : Nat) (pressure : Bool) :
    StabilityRejectBody :=
  { success := false
    message := msg.getD "Too many requests, please try again later."
    retryAfter := (windowMs + 999) / 1000
    systemStatus := if pressure then "under_pressure" else "healthy" }

/-- One request through a limiter built by `createStabilityRateLimit`: health
paths are skipped; otherwise a counted request against the dynamic
`stabilityMax` limit. -/
def stabilityHit (optMax : Option Nat) (windowMs : Nat) (msg : Option String)
    (pressure : Bool) (path : String) (now : Nat) (st : WindowState) :
    WindowState × HitOutcome StabilityRejectBody :=
  if stabilitySkip path then (st, HitOutcome.admitted)
  else windowHit (stabilityBody msg windowMs pressure) windowMs
    (stabilityMax optMax pressure path) now st

/-- A sequence of same-path requests through a stability limiter. -/
def runStability (optMax : Option Nat) (windowMs : Nat) (msg : Option String)
    (pressure : Bool) (path : String) : List Nat → WindowState →
    WindowState × List (HitOutcome StabilityRejectBody)
  | [], st => (st, [])
  | t :: ts, st =>
    let r := stabilityHit optMax windowMs msg pressure path t st
    let rest := runStability optMax windowMs msg pressure path ts r.1
    (rest.1, r.2 :: rest.2)

example :
    (runHits limitersAuth [0, 1, 2, 3, 4, 5] (WindowState.mk 0 0)).2.getD 5
      (HitOutcome.admitted) = HitOutcome.rejected (analyticsBody limitersAuth) := by
  decide

example : (analyticsBody limitersAuth).retryAfter = 900 := by decide

/-- A queued request: an identifier (one per enqueued request) and the
admin/analytics priority flag computed from its path. -/
structure Entry where
  id : Nat
  isAdmin : Bool
deriving DecidableEq

/-- Paths that bypass the queue entirely in `RequestQueue.middleware`:
`/health`, `/api/health`, and any path containing `/auth/logout`. -/
def bypassPath (path : String) : Bool :=
  path == "/health" || path == "/api/health" || includesStr path "/auth/logout"

/-- The `SERVER_BUSY` capacity-rejection response sent when a queued request's
timeout fires: `res.status(503).json(...)`. -/
structure BusyBody where
  status : Nat
  success : Bool
  message : String
  code : String
deriving DecidableEq

/-- The concrete capacity-rejection body from `RequestQueue.middleware`. -/
def serverBusyBody : BusyBody :=
  { status := 503
    success := false
    message := "Server is busy. Please try again later."
    code := "SERVER_BUSY" }

/-- The queue-wait timeout in milliseconds (`setTimeout(..., 10000)`). -/
def queueTimeoutMs : Nat := 10000

/-- State of `RequestQueue`. The fields `maxConcurrent`, `activeRequests`,
`isProcessing` and `queue` are the source fields; `nextId`, `enqueueLog`,
`admitLog` and `busy` are history instrumentation: the ids handed to enqueued
requests in arrival order, the entries admitted from the queue in admission
order, and the ids answered with the `SERVER_BUSY` rejection. -/
structure RequestQueue where
  maxConcurrent : Nat
  activeRequests : Nat
  isProcessing : Bool
  queue : List Entry
  nextId : Nat
  enqueueLog : List Entry
  admitLog : List Entry
  busy : List Nat
deriving DecidableEq

/-- A fresh `RequestQueue` with the given concurrency bound (the constructor). -/
def initQ (maxConcurrent : Nat) : RequestQueue :=
  { maxConcurrent := maxConcurrent
    activeRequests := 0
    isProcessing := false
    queue := []
    nextId := 0
    enqueueLog := []
    admitLog := []
    busy := [] }

/-- The module-level instance `new RequestQueue(30)` (max 30 concurrent). -/
def requestQueue : RequestQueue :=
  initQ 30

/-- `RequestQueue.processQueue`: no-op while a queued admission is in flight,
the queue is empty, capacity is exhausted, or memory is under pressure;
otherwise shift the head entry (cancelling its timeout), admit it and mark the
single-flight flag. -/
def processQueue (pressure : Bool) (st : RequestQueue) : RequestQueue :=
  if st.isProcessing || st.queue.isEmpty then st
  else if st.maxConcurrent ≤ st.activeRequests || pressure then st
  else
    match st.queue with
    | [] => st
    | e :: rest =>
      { st with
        activeRequests := st.activeRequests + 1
        isProcessing := true
        queue := rest
        admitLog := st.admitLog ++ [e] }

/-- Events driving the queue: a request arrival (with the pressure flag and
request path), completion of a directly admitted request, completion of a
request admitted from the queue (which also clears the single-flight flag),
and the firing of a queued request's timeout. -/
inductive QEvent where
  | arrive : Bool → String → QEvent
  | finishDirect : Bool → QEvent
  | finishQueued : Bool → QEvent
  | fireTimeout : Bool → Nat → QEvent
deriving DecidableEq

/-- One step of the queue system, translated from `RequestQueue.middleware`,
the `cleanup` callbacks (registered identically for `finish`, `close` and
`error`, i.e. success, client-disconnect and error) and the timeout callback. -/
def qstep (ev : QEvent) (st : RequestQueue) : RequestQueue :=
  match ev with
  | QEvent.arrive pressure path =>
    if bypassPath path then st
    else if st.activeRequests < st.maxConcurrent && !pressure then
      { st with activeRequests := st.activeRequests + 1 }
    else
      let e : Entry := { id := st.nextId, isAdmin := isAdminReqPath path }
      let st :=
        { st with
          queue := if e.isAdmin then e :: st.queue else st.queue ++ [e]
          nextId := st.nextId + 1
          enqueueLog := st.enqueueLog ++ [e] }
      processQueue pressure st
  | QEvent.finishDirect pressure =>
    processQueue pressure { st with activeRequests := st.activeRequests - 1 }
  | QEvent.finishQueued pressure =>
    processQueue pressure
      { st with activeRequests := st.activeRequests - 1, isProcessing := false }
  | QEvent.fireTimeout _pressure i =>
    if st.queue.any (fun e => e.id == i) then
      { st with
        queue := st.queue.eraseP (fun e => e.id == i)
        busy := st.busy ++ [i] }
    else st

/-- Run a list of events from a given state. -/
def runFrom (st : RequestQueue) (evs : List QEvent) : RequestQueue :=
  evs.foldl (fun s e => qstep e s) st

/-- Run a list of events from a fresh queue with concurrency bound `m`. -/
def runQ (m : Nat) (evs : List QEvent) : RequestQueue :=
  runFrom (initQ m) evs

/-- Do all priority entries precede all normal entries in the queue? -/
def adminsBeforeNormals : List Entry → Bool
  | [] => true
  | e :: rest =>
    if e.isAdmin then adminsBeforeNormals rest
    else rest.all (fun x => !x.isAdmin)

example :
    (runQ 1 [QEvent.arrive false "/api/x", QEvent.arrive false "/api/admin/a",
      QEvent.arrive false "/api/admin/b", QEvent.finishDirect false,
      QEvent.finishQueued false]).admitLog.map Entry.id = [1, 0] := by decide

example :
    (runQ 1 [QEvent.arrive false "/api/x", QEvent.arrive false "/api/admin/a",
      QEvent.arrive false "/api/admin/b"]).enqueueLog.map Entry.id = [0, 1] := by
  decide

/-- A raw request record as stored by `RateLimitAnalytics.logRequest`. -/
structure RequestRecord where
  ip : String
  endpoint : String
  blocked : Bool
  userAgent : String
  method : String
  timestamp : Nat
deriving DecidableEq

/-- Per-endpoint aggregate (`EndpointStats` of the spec). -/
structure EndpointStats where
  total : Nat
  blocked : Nat
  lastAccess : Nat
deriving DecidableEq

/-- One rolling hourly bucket (`HourlyBucket` of the spec). -/
structure HourlyBucket where
  timestamp : Nat
  requests : Nat
  blocked : Nat
  activeIPs : Nat
deriving DecidableEq

/-- The real-time (since-last-cleanup) counters. -/
structure RealTimeStats where
  currentRequests : Nat
  blockedRequests : Nat
  topIPs : List (String × Nat)
  topEndpoints : List (String × Nat)
deriving DecidableEq

/-- JS `Map.set`: overwrite in place if the key exists, else append. -/
def mapSet {β : Type} (k : String) (v : β) : List (String × β) → List (String × β)
  | [] => [(k, v)]
  | p :: rest => if p.1 = k then (k, v) :: rest else p :: mapSet k v rest

/-- JS `Map.get(k) || d` (total lookup with a default). -/
def mapGetD {β : Type} (k : String) (d : β) : List (String × β) → β
  | [] => d
  | p :: rest => if p.1 = k then p.2 else mapGetD k d rest

/-- The whole in-memory state of the `RateLimitAnalytics` store. -/
structure RateLimitAnalytics where
  requests : List (String × RequestRecord)
  violations : List (String × Nat)
  endpoints : List (String × EndpointStats)
  hourlyStats : List HourlyBucket
  realTimeStats : RealTimeStats
deriving DecidableEq

/-- The store's constructor state. -/
def initStore : RateLimitAnalytics :=
  { requests := []
    violations := []
    endpoints := []
    hourlyStats := []
    realTimeStats := { currentRequests := 0, blockedRequests := 0, topIPs := [], topEndpoints := [] } }

/-- `RateLimitAnalytics.logRequest(ip, endpoint, blocked, userAgent, method)`
at time `now`: store the record under key `ip ++ "-" ++ now` (overwriting any
record with the same key), bump the real-time counters, the per-IP violation
counter when blocked, the top-IP/top-endpoint frequency tables, and the
endpoint aggregate. -/
def RateLimitAnalytics.logRequest (st : RateLimitAnalytics) (now : Nat)
    (ip endpoint : String) (blocked : Bool) (userAgent method : String) :
    RateLimitAnalytics :=
  let key := ip ++ "-" ++ toString now
  let rec0 : RequestRecord :=
    { ip := ip, endpoint := endpoint, blocked := blocked,
      userAgent := userAgent, method := method, timestamp := now }
  let rt := st.realTimeStats
  let rt :=
    { rt with
      currentRequests := rt.currentRequests + 1
      blockedRequests := rt.blockedRequests + (if blocked then 1 else 0)
      topIPs := mapSet ip (mapGetD ip 0 rt.topIPs + 1) rt.topIPs
      topEndpoints := mapSet endpoint (mapGetD endpoint 0 rt.topEndpoints + 1) rt.topEndpoints }
  let violations :=
    if blocked then mapSet ip (mapGetD ip 0 st.violations + 1) st.violations
    else st.violations
  let prev := mapGetD endpoint { total := 0, blocked := 0, lastAccess := now } st.endpoints
  let endpoints :=
    mapSet endpoint
      { total := prev.total + 1
        blocked := prev.blocked + (if blocked then 1 else 0)
        lastAccess := now }
      st.endpoints
  { st with
    requests := mapSet key rec0 st.requests
    realTimeStats := rt
    violations := violations
    endpoints := endpoints }

/-- One hour and one day in milliseconds. -/
def hourMs : Nat := 60 * 60 * 1000

/-- One day in milliseconds. -/
def dayMs : Nat := 24 * 60 * 60 * 1000

/-- `RateLimitAnalytics.updateHourlyStats()` at time `now`: count the retained
requests of the trailing hour (and the blocked and distinct-IP portions),
append one bucket, and keep only the last 24 hours of buckets. -/
def RateLimitAnalytics.updateHourlyStats (st : RateLimitAnalytics) (now : Nat) :
    RateLimitAnalytics :=
  let hourAgo := now - hourMs
  let recs := (st.requests.map Prod.snd).filter (fun r => hourAgo ≤ r.timestamp)
  let bucket : HourlyBucket :=
    { timestamp := now
      requests := recs.length
      blocked := (recs.filter (fun r => r.blocked)).length
      activeIPs := ((recs.map RequestRecord.ip).dedup).length }
  { st with
    hourlyStats := (st.hourlyStats ++ [bucket]).filter (fun b => now - dayMs ≤ b.timestamp) }

/-- `RateLimitAnalytics.cleanupOldData()` at time `now`: purge raw records
older than one hour and reset the real-time counters. -/
def RateLimitAnalytics.cleanupOldData (st : RateLimitAnalytics) (now : Nat) :
    RateLimitAnalytics :=
  { st with
    requests := st.requests.filter (fun p => ¬ (p.2.timestamp < now - hourMs))
    realTimeStats := { currentRequests := 0, blockedRequests := 0, topIPs := [], topEndpoints := [] } }

/-- Insert into a list sorted descending by `f` (the JS comparator
`(a, b) => f b - f a`). -/
def insertByDesc {α : Type} (f : α → Nat) (a : α) : List α → List α
  | [] => [a]
  | b :: l => if f b ≤ f a then a :: b :: l else b :: insertByDesc f a l

/-- Sort descending by `f`. -/
def sortByDesc {α : Type} (f : α → Nat) : List α → List α
  | [] => []
  | a :: l => insertByDesc f a (sortByDesc f l)

/-- Collect the distinct values of a list in first-occurrence order
(JS `new Set(list)`). -/
def distinctVals {α : Type} [BEq α] (l : List α) : List α :=
  l.foldl (fun acc a => if acc.contains a then acc else acc ++ [a]) []

/-- The `summary` object of `getAnalytics()`. The percentage `blockRate` is
kept as a rational (`toFixed(2)` display rounding is not modelled). -/
structure AnalyticsSummary where
  totalRequests : Nat
  blockedRequests : Nat
  blockRate : ℚ
  activeIPs : Nat
  totalViolations : Nat
deriving DecidableEq

/-- One entry of the `endpointStats` array returned by `getAnalytics()`. -/
structure EndpointStatOut where
  endpoint : String
  total : Nat
  blocked : Nat
  lastAccess : Nat
  blockRate : ℚ
deriving DecidableEq

/-- The snapshot returned by `getAnalytics()`. -/
structure AnalyticsOut where
  summary : AnalyticsSummary
  recentRequests : List RequestRecord
  topViolators : List (String × Nat)
  endpointStats : List EndpointStatOut
  hourlyStats : List HourlyBucket
  realTimeCurrent : Nat
  realTimeBlocked : Nat
  realTimeTopIPs : List (String × Nat)
  realTimeTopEndpoints : List (String × Nat)
deriving DecidableEq

/-- `RateLimitAnalytics.getAnalytics()` at time `now`, translated from
rateLimitAnalytics.js lines 118-175: the recent list is the retained records
of the trailing hour, sorted newest-first and sliced to at most 100; the
summary counts are computed from that sliced list. -/
def RateLimitAnalytics.getAnalytics (st : RateLimitAnalytics) (now : Nat) :
    AnalyticsOut :=
  let hourAgo := now - hourMs
  let recentRequests :=
    (sortByDesc RequestRecord.timestamp
      ((st.requests.map Prod.snd).filter (fun r => hourAgo ≤ r.timestamp))).take 100
  let totalRequests := recentRequests.length
  let blockedRequests := (recentRequests.filter (fun r => r.blocked)).length
  let blockRate : ℚ :=
    if 0 < totalRequests then (blockedRequests * 100 : ℚ) / totalRequests else 0
  let topViolators := (sortByDesc Prod.snd st.violations).take 10
  let endpointStats :=
    ((sortByDesc (fun p => p.2.total) st.endpoints).take 10).map
      (fun p =>
        { endpoint := p.1
          total := p.2.total
          blocked := p.2.blocked
          lastAccess := p.2.lastAccess
          blockRate :=
            if 0 < p.2.total then (p.2.blocked * 100 : ℚ) / p.2.total else 0 })
  let activeIPs := (distinctVals (recentRequests.map RequestRecord.ip)).length
  { summary :=
      { totalRequests := totalRequests
        blockedRequests := blockedRequests
        blockRate := blockRate
        activeIPs := activeIPs
        totalViolations := (st.violations.map Prod.snd).sum }
    recentRequests := recentRequests.take 20
    topViolators := topViolators
    endpointStats := endpointStats
    hourlyStats := st.hourlyStats
    realTimeCurrent := st.realTimeStats.currentRequests
    realTimeBlocked := st.realTimeStats.blockedRequests
    realTimeTopIPs := (sortByDesc Prod.snd st.realTimeStats.topIPs).take 5
    realTimeTopEndpoints := (sortByDesc Prod.snd st.realTimeStats.topEndpoints).take 5 }

/-- The per-IP drill-down returned by `getIPAnalytics(ip)`. -/
structure IPAnalyticsOut where
  ip : String
  totalRequests : Nat
  blockedRequests : Nat
  violations : Nat
  endpoints : List String
  recentActivity : List RequestRecord
deriving DecidableEq

/-- `RateLimitAnalytics.getIPAnalytics(ip)`: all retained records of that IP,
sorted newest-first. -/
def RateLimitAnalytics.getIPAnalytics (st : RateLimitAnalytics) (ip : String) :
    IPAnalyticsOut :=
  let reqs :=
    sortByDesc RequestRecord.timestamp
      ((st.requests.map Prod.snd).filter (fun r => r.ip = ip))
  { ip := ip
    totalRequests := reqs.length
    blockedRequests := (reqs.filter (fun r => r.blocked)).length
    violations := mapGetD ip 0 st.violations
    endpoints := distinctVals (reqs.map RequestRecord.endpoint)
    recentActivity := reqs.take 50 }

/-- The operations mutating the store, each stamped with its wall-clock time:
`logRequest` from the request path, and the two periodic jobs. -/
inductive StoreOp where
  | log : Nat → String → String → Bool → String → String → StoreOp
  | hourly : Nat → StoreOp
  | cleanup : Nat → StoreOp
deriving DecidableEq

/-- Apply one store operation. -/
def applyOp (st : RateLimitAnalytics) : StoreOp → RateLimitAnalytics
  | StoreOp.log now ip endpoint blocked ua method =>
    st.logRequest now ip endpoint blocked ua method
  | StoreOp.hourly now => st.updateHourlyStats now
  | StoreOp.cleanup now => st.cleanupOldData now

/-- Run a sequence of store operations from the constructor state. -/
def runStore (ops : List StoreOp) : RateLimitAnalytics :=
  ops.foldl applyOp initStore

/-- Total list indexing with a default. -/
def nth {α : Type} (d : α) : List α → Nat → α
  | [], _ => d
  | a :: _, 0 => a
  | _ :: l, n + 1 => nth d l n

example :
    (runStore [StoreOp.log 5 "1.2.3.4" "/api/x" false "" "GET",
      StoreOp.log 5 "1.2.3.4" "/api/x" false "" "GET"]).requests.length = 1 := by
  decide

example :
    ((runStore [StoreOp.log 5 "1.2.3.4" "/api/x" false "" "GET",
      StoreOp.log 5 "1.2.3.4" "/api/x" false "" "GET"]).getIPAnalytics
        "1.2.3.4").totalRequests = 1 := by
  decide

theorem length_insertByDesc {α : Type} (f : α → Nat) (a : α) (l : List α) :
    (insertByDesc f a l).length = l.length + 1 := by
  induction l with
  | nil => rfl
  | cons b l ih =>
    by_cases h : f b ≤ f a <;> simp [insertByDesc, h, ih]

theorem length_sortByDesc {α : Type} (f : α → Nat) (l : List α) :
    (sortByDesc f l).length = l.length := by
  induction l with
  | nil => rfl
  | cons a l ih => simp [sortByDesc, length_insertByDesc, ih]

theorem mem_insertByDesc {α : Type} (f : α → Nat) (a x : α) (l : List α)
    (h : x ∈ insertByDesc f a l) : x = a ∨ x ∈ l := by
  induction l with
  | nil => simpa [insertByDesc] using h
  | cons b l ih =>
    by_cases hb : f b ≤ f a
    · simp only [insertByDesc, if_pos hb, List.mem_cons] at h
      rcases h with h | h | h
      · left; exact h
      · right; simp [h]
      · right; simp [h]
    · simp only [insertByDesc, if_neg hb, List.mem_cons] at h
      rcases h with h | h
      · right; simp [h]
      · rcases ih h with h | h
        · left; exact h
        · right; simp [h]

theorem mem_sortByDesc {α : Type} (f : α → Nat) (x : α) (l : List α)
    (h : x ∈ sortByDesc f l) : x ∈ l := by
  induction l with
  | nil => simp [sortByDesc] at h
  | cons a l ih =>
    rcases mem_insertByDesc f a x (sortByDesc f l) h with h | h
    · simp [h]
    · simp [ih h]

theorem nth_pred {α : Type} (P : α → Prop) (d : α) (hd : P d) :
    ∀ (l : List α) (i : Nat), (∀ x ∈ l, P x) → P (nth d l i)
  | [], _, _ => hd
  | a :: _, 0, h => h a (by simp)
  | _ :: l, n + 1, h =>
    nth_pred P d hd l n (fun x hx => h x (by simp [hx]))

/-- C1: The effective maximum of `createStabilityRateLimit` is the base limit
halved (with floor) under memory pressure, then, on admin/analytics paths,
quadrupled with a lower bound of 200 (the larger of the two bounds applies);
in particular, with pressure active and base admin limit 1000 the effective
admin-path limit is 2000. -/
theorem C1_effectiveMax_formula :
    stabilityMax (some 1000) true "/api/admin/metrics" = 2000 ∧
    (∀ (k : Nat) (path : String), k ≠ 0 → isAdminReqPath path = false →
      stabilityMax (some (2 * k)) true path = k) ∧
    (∀ (k : Nat) (path : String), k ≠ 0 → isAdminReqPath path = false →
      stabilityMax (some k) false path = k) ∧
    (∀ (optMax : Option Nat) (pressure : Bool) (pa pn : String),
      isAdminReqPath pa = true → isAdminReqPath pn = false →
      stabilityMax optMax pressure pa =
        Nat.max (4 * stabilityMax optMax pressure pn) 200) := by
  refine ⟨by decide, ?_, ?_, ?_⟩
  · intro k path hk hpath
    have h2k : ¬ (2 * k = 0) := by omega
    simp only [stabilityMax, jsOrNat, if_neg h2k, if_pos rfl, hpath,
      Bool.false_eq_true, if_false, if_true]
    omega
  · intro k path hk hpath
    simp [stabilityMax, jsOrNat, hk, hpath]
  · intro optMax pressure pa pn hpa hpn
    simp only [stabilityMax, hpa, hpn, Bool.false_eq_true, if_false, if_true]
    cases pressure <;> simp [Nat.mul_comm]

/-- C1 witness: concrete instances of the halving, identity and
admin-quadrupling components. -/
theorem C1_witness :
    stabilityMax (some (2 * 100)) true "/api/projects" = 100 ∧
    stabilityMax (some 200) false "/api/projects" = 200 ∧
    stabilityMax (some 200) true "/api/admin/x" =
      Nat.max (4 * stabilityMax (some 200) true "/api/projects") 200 :=
  ⟨C1_effectiveMax_formula.2.1 100 "/api/projects" (by decide) (by decide),
   C1_effectiveMax_formula.2.2.1 200 "/api/projects" (by decide) (by decide),
   C1_effectiveMax_formula.2.2.2 (some 200) true "/api/admin/x" "/api/projects"
     (by decide) (by decide)⟩

/-- C10: Two `logRequest` calls for the same IP in the same millisecond share
the key `ip ++ "-" ++ timestamp`, so the second raw record overwrites the
first, while the endpoint and real-time counters count both; the per-IP
`totalRequests` (1) is then strictly below the number of calls (2). -/
theorem C10_key_collision :
    (runStore [StoreOp.log 5 "1.2.3.4" "/api/x" false "" "GET",
      StoreOp.log 5 "1.2.3.4" "/api/x" false "" "GET"]).requests.map Prod.fst =
        ["1.2.3.4-5"] ∧
    ((runStore [StoreOp.log 5 "1.2.3.4" "/api/x" false "" "GET",
      StoreOp.log 5 "1.2.3.4" "/api/x" false "" "GET"]).getIPAnalytics
        "1.2.3.4").totalRequests = 1 ∧
    (mapGetD "/api/x" (EndpointStats.mk 0 0 0)
      (runStore [StoreOp.log 5 "1.2.3.4" "/api/x" false "" "GET",
        StoreOp.log 5 "1.2.3.4" "/api/x" false "" "GET"]).endpoints).total = 2 ∧
    (runStore [StoreOp.log 5 "1.2.3.4" "/api/x" false "" "GET",
      StoreOp.log 5 "1.2.3.4" "/api/x" false "" "GET"]).realTimeStats.currentRequests
        = 2 ∧
    (1 : Nat) < 2 := by
  refine ⟨by decide, by decide, by decide, by decide, by decide⟩

/-- C9 counterexample: a store holding 101 records of the trailing hour
reports `summary.totalRequests = 100`, not 101 — the recent list is sliced to
at most 100 before counting. -/
theorem C9_totalRequests_cex :
    ((RateLimitAnalytics.mk
        ((List.range 101).map (fun i =>
          (toString i ++ "-0",
            RequestRecord.mk (toString i) "/e" false "" "GET" 0)))
        [] [] [] (RealTimeStats.mk 0 0 [] [])).getAnalytics 0).summary.totalRequests
      = 100 ∧
    (((RateLimitAnalytics.mk
        ((List.range 101).map (fun i =>
          (toString i ++ "-0",
            RequestRecord.mk (toString i) "/e" false "" "GET" 0)))
        [] [] [] (RealTimeStats.mk 0 0 [] [])).requests.map Prod.snd).filter
          (fun r => (0 : Nat) - hourMs ≤ r.timestamp)).length = 101 ∧
    (100 : Nat) ≠ 101 := by
  set_option maxRecDepth 40000 in
  refine ⟨?_, ?_, by decide⟩ <;> decide

/-- C9 (amended): `getAnalytics().summary` reports, over the trailing hour,
`totalRequests` equal to the count of retained in-hour records capped at 100
(the sorted recent list is sliced to at most 100 before counting), and
`totalViolations` equal to the sum of all violation counters. -/
theorem C9_summary_capped :
    ∀ (st : RateLimitAnalytics) (now : Nat),
      (st.getAnalytics now).summary.totalRequests =
        min 100 (((st.requests.map Prod.snd).filter
          (fun r => now - hourMs ≤ r.timestamp)).length) ∧
      (st.getAnalytics now).summary.totalViolations =
        (st.violations.map Prod.snd).sum := by
  intro st now
  constructor
  · simp [RateLimitAnalytics.getAnalytics, List.length_take, length_sortByDesc]
  · simp [RateLimitAnalytics.getAnalytics]

/-- C7 counterexample: a request whose path is the logout endpoint is not
exempted by the stability rate limiter — with the `auth` configuration
(max 15 per 15 minutes), the 16th logout-path request in one window is
rejected, contradicting the claimed logout exemption. -/
theorem C7_logout_cex :
    (runStability (some 15) (15 * 60 * 1000)
        (some "Too many authentication attempts. Please try again later.")
        false "/api/auth/logout" (List.replicate 16 0) (WindowState.mk 0 0)).2.getD 15
        HitOutcome.admitted =
      HitOutcome.rejected
        (stabilityBody (some "Too many authentication attempts. Please try again later.")
          (15 * 60 * 1000) false) ∧
    stabilitySkip "/api/auth/logout" = false := by
  set_option maxRecDepth 100000 in
  constructor <;> decide

/-- C7 (amended): the health-check paths `/health` and `/api/health` are
exempted (never counted, never rejected) by every stability rate limiter;
the logout path is exempted only from the admission queue, not from the rate
limiters; and the analytics limiter's `skip` exempts no request at all. -/
theorem C7_health_exemption :
    ∀ (optMax : Option Nat) (windowMs : Nat) (msg : Option String)
      (pressure : Bool) (now : Nat) (st : WindowState) (path : String),
      stabilityHit optMax windowMs msg pressure "/health" now st =
        (st, HitOutcome.admitted) ∧
      stabilityHit optMax windowMs msg pressure "/api/health" now st =
        (st, HitOutcome.admitted) ∧
      stabilitySkip "/api/auth/logout" = false ∧
      bypassPath "/api/auth/logout" = true ∧
      analyticsSkip path = false := by
  intro optMax windowMs msg pressure now st path
  have h1 : stabilitySkip "/health" = true := by decide
  have h2 : stabilitySkip "/api/health" = true := by decide
  exact ⟨by simp [stabilityHit, h1], by simp [stabilityHit, h2], by decide,
    by decide, rfl⟩

theorem analyticsHit_inWindow (o : LimiterOptions) (t t0 c : Nat)
    (h : t - t0 < o.windowMs) :
    analyticsHit o t (WindowState.mk t0 c) =
      (WindowState.mk t0 (c + 1),
        if c + 1 ≤ o.max then HitOutcome.admitted
        else HitOutcome.rejected (analyticsBody o)) := by
  have hr : ¬ (o.windowMs ≤ t - t0) := by omega
  by_cases hc : c + 1 ≤ o.max <;>
    simp [analyticsHit, windowHit, windowCount, hr, hc]

theorem countAdmitted_cons {β : Type} (x : HitOutcome β) (l : List (HitOutcome β)) :
    countAdmitted (x :: l) =
      (if isOkOutcome x then 1 else 0) + countAdmitted l := by
  by_cases h : isOkOutcome x = true <;>
    simp [countAdmitted, List.filter, h] <;> omega

theorem countAdmitted_add_countRejected {β : Type} (l : List (HitOutcome β)) :
    countAdmitted l + countRejected l = l.length := by
  induction l with
  | nil => rfl
  | cons x l ih =>
    by_cases h : isOkOutcome x = true <;>
      simp [countAdmitted, countRejected, List.filter, h] at * <;> omega

theorem runHits_inWindow (o : LimiterOptions) :
    ∀ (ts : List Nat) (t0 c : Nat),
      (∀ t ∈ ts, t - t0 < o.windowMs) →
      (runHits o ts (WindowState.mk t0 c)).1 = WindowState.mk t0 (c + ts.length) ∧
      countAdmitted (runHits o ts (WindowState.mk t0 c)).2 =
        min ts.length (o.max - c) ∧
      (∀ b, HitOutcome.rejected b ∈ (runHits o ts (WindowState.mk t0 c)).2 →
        b = analyticsBody o) := by
  intro ts
  induction ts with
  | nil =>
    intro t0 c _
    refine ⟨by simp [runHits], by simp [runHits, countAdmitted], ?_⟩
    intro b hb
    simp [runHits] at hb
  | cons t ts ih =>
    intro t0 c h
    have ht : t - t0 < o.windowMs := h t (by simp)
    have hts : ∀ x ∈ ts, x - t0 < o.windowMs := fun x hx => h x (by simp [hx])
    have hstep := analyticsHit_inWindow o t t0 c ht
    have ihc := ih t0 (c + 1) hts
    have hrun :
        runHits o (t :: ts) (WindowState.mk t0 c) =
          ((runHits o ts (WindowState.mk t0 (c + 1))).1,
            (if c + 1 ≤ o.max then HitOutcome.admitted
              else HitOutcome.rejected (analyticsBody o)) ::
              (runHits o ts (WindowState.mk t0 (c + 1))).2) := by
      simp [runHits, hstep]
    refine ⟨?_, ?_, ?_⟩
    · rw [hrun]
      rw [ihc.1]
      simp
      omega
    · rw [hrun]
      simp only [countAdmitted_cons]
      rw [ihc.2.1]
      by_cases hc : c + 1 ≤ o.max <;> simp [isOkOutcome, hc] <;> omega
    · intro b hb
      rw [hrun] at hb
      simp only [List.mem_cons] at hb
      rcases hb with hb | hb
      · by_cases hc : c + 1 ≤ o.max
        · simp [hc] at hb
        · simp [hc] at hb
          exact hb
      · exact ihc.2.2 b hb

theorem length_runHits (o : LimiterOptions) :
    ∀ (ts : List Nat) (st : WindowState), (runHits o ts st).2.length = ts.length
  | [], _ => rfl
  | t :: ts, st => by simp [runHits, length_runHits o ts]

/-- C2 counterexample: in the `auth` window (900000 ms, limit 5), the sixth
request arriving 300 s into the window is rejected with a body whose
`retryAfter` is 900 — the full window in seconds — while the seconds remaining
until the window resets are 600, contradicting the claimed retry-after. -/
theorem C2_retryAfter_cex :
    (runHits limitersAuth [0, 0, 0, 0, 0, 300000] (WindowState.mk 0 0)).2.getD 5
        HitOutcome.admitted = HitOutcome.rejected (analyticsBody limitersAuth) ∧
    (analyticsBody limitersAuth).retryAfter = 900 ∧
    remainingSeconds 0 limitersAuth.windowMs 300000 = 600 ∧
    (900 : Nat) ≠ 600 := by
  refine ⟨by decide, by decide, by decide, by decide⟩

/-- C2 (amended): for N same-window requests from one client with N above the
configured limit, exactly `limit` are admitted and `N - limit` are rejected,
each rejection carrying HTTP status 429 and a body with `retryAfter` equal to
the configured window length in seconds (`Math.round(windowMs/1000)`), the
configured message, the configured limit and the window length. -/
theorem C2_window_admissions :
    ∀ (o : LimiterOptions) (t0 : Nat) (ts : List Nat),
      (∀ t ∈ ts, t - t0 < o.windowMs) → o.max < ts.length →
      countAdmitted (runHits o ts (WindowState.mk t0 0)).2 = o.max ∧
      countRejected (runHits o ts (WindowState.mk t0 0)).2 = ts.length - o.max ∧
      (∀ b, HitOutcome.rejected b ∈ (runHits o ts (WindowState.mk t0 0)).2 →
        b.status = 429 ∧
        b.retryAfter = (o.windowMs + 500) / 1000 ∧
        b.message = o.message.getD "Too many requests, please try again later." ∧
        b.limit = o.max ∧ b.windowMs = o.windowMs) := by
  intro o t0 ts hin hover
  have h := runHits_inWindow o ts t0 0 hin
  have hadm : countAdmitted (runHits o ts (WindowState.mk t0 0)).2 = o.max := by
    rw [h.2.1]; omega
  have hlen :
      countAdmitted (runHits o ts (WindowState.mk t0 0)).2 +
        countRejected (runHits o ts (WindowState.mk t0 0)).2 =
        (runHits o ts (WindowState.mk t0 0)).2.length :=
    countAdmitted_add_countRejected _
  have hlen2 : (runHits o ts (WindowState.mk t0 0)).2.length = ts.length :=
    length_runHits o ts _
  refine ⟨hadm, by omega, ?_⟩
  intro b hb
  have hbody := h.2.2 b hb
  subst hbody
  exact ⟨rfl, rfl, rfl, rfl, rfl⟩

/-- C2 witness: the `auth` limiter (window 900000 ms, limit 5) on six
same-window requests admits exactly five and rejects one, with status 429. -/
theorem C2_witness :
    countAdmitted (runHits limitersAuth [0, 1, 2, 3, 4, 5] (WindowState.mk 0 0)).2
        = 5 ∧
    countRejected (runHits limitersAuth [0, 1, 2, 3, 4, 5] (WindowState.mk 0 0)).2
        = 1 ∧
    (analyticsBody limitersAuth).status = 429 := by
  have h := C2_window_admissions limitersAuth 0 [0, 1, 2, 3, 4, 5]
    (by decide) (by decide)
  exact ⟨h.1, h.2.1, (h.2.2 (analyticsBody limitersAuth) (by decide)).1⟩

/-- C3: A request whose bearer token verifies with role `admin` or `moderator`
is skipped by `createSmartLimiter` — never counted, and a whole run of such
requests is admitted without touching the window state; an absent, malformed
or unverifiable credential yields `skip = false`, i.e. the normal counted
treatment, and the limiter's outcome is only ever an admission or the
configured 429 rejection — a verification failure is never surfaced. -/
theorem C3_admin_exemption :
    (∀ (verify : String → VerifyResult) (h : String) (r : String),
      strStarts h "Bearer " = true → strDrop h 7 ≠ "" →
      verify (strDrop h 7) = VerifyResult.ok (some r) →
      (r = "admin" ∨ r = "moderator") →
      smartSkip (some h) verify = true) ∧
    (∀ (o : LimiterOptions) (verify : String → VerifyResult)
        (reqs : List (Option String × Nat)) (st : WindowState),
      (∀ q ∈ reqs, smartSkip q.1 verify = true) →
      runSmart o verify reqs st = (st, reqs.map (fun _ => HitOutcome.admitted))) ∧
    (∀ verify : String → VerifyResult, smartSkip none verify = false) ∧
    (∀ (verify : String → VerifyResult) (h : String),
      verify (strDrop h 7) = VerifyResult.fail → smartSkip (some h) verify = false) ∧
    (∀ (verify : String → VerifyResult) (h : String),
      strStarts h "Bearer " = false → smartSkip (some h) verify = false) ∧
    (∀ (o : LimiterOptions) (verify : String → VerifyResult) (a : Option String)
        (now : Nat) (st : WindowState),
      smartSkip a verify = false →
      smartHit o verify a now st = windowHit (smartBody o) o.windowMs o.max now st) ∧
    (∀ (o : LimiterOptions) (verify : String → VerifyResult) (a : Option String)
        (now : Nat) (st : WindowState),
      (smartHit o verify a now st).2 = HitOutcome.admitted ∨
      (smartHit o verify a now st).2 = HitOutcome.rejected (smartBody o)) := by
  refine ⟨?_, ?_, ?_, ?_, ?_, ?_, ?_⟩
  · intro verify h r hs ht hv hr
    simp only [smartSkip, hs, Bool.not_true, Bool.false_eq_true, if_false,
      if_neg ht, hv]
    rcases hr with hr | hr <;> simp [hr]
  · intro o verify reqs
    induction reqs with
    | nil => intro st _; simp [runSmart]
    | cons q qs ih =>
      intro st h
      have hq : smartSkip q.1 verify = true := h q (by simp)
      have hqs : ∀ x ∈ qs, smartSkip x.1 verify = true :=
        fun x hx => h x (by simp [hx])
      simp [runSmart, smartHit, hq, ih _ hqs]
  · intro verify; rfl
  · intro verify h hv
    by_cases hs : strStarts h "Bearer " = true
    · by_cases ht : strDrop h 7 = ""
      · simp [smartSkip, hs, ht]
      · simp [smartSkip, hs, ht, hv]
    · simp only [Bool.not_eq_true] at hs
      simp [smartSkip, hs]
  · intro verify h hs
    simp [smartSkip, hs]
  · intro o verify a now st h
    simp [smartHit, h]
  · intro o verify a now st
    by_cases h : smartSkip a verify = true
    · left; simp [smartHit, h]
    · simp only [Bool.not_eq_true] at h
      simp only [smartHit, h, Bool.false_eq_true, if_false]
      by_cases hc : (windowCount o.windowMs now st).count ≤ o.max
      · left; simp [windowHit, hc]
      · right; simp [windowHit, hc]

/-- C3 witness: with a verifier accepting exactly the token `tok` as admin,
the skip fires, two successive privileged requests leave the window state
untouched and are both admitted, and a missing, malformed or failing
credential is not skipped. -/
theorem C3_witness :
    smartSkip (some "Bearer tok")
      (fun t => if t = "tok" then VerifyResult.ok (some "admin")
        else VerifyResult.fail) = true ∧
    runSmart limitersAuth
      (fun t => if t = "tok" then VerifyResult.ok (some "admin")
        else VerifyResult.fail)
      [(some "Bearer tok", 0), (some "Bearer tok", 1)] (WindowState.mk 0 0) =
      (WindowState.mk 0 0, [HitOutcome.admitted, HitOutcome.admitted]) ∧
    smartSkip none
      (fun t => if t = "tok" then VerifyResult.ok (some "admin")
        else VerifyResult.fail) = false ∧
    smartSkip (some "Bearer bad")
      (fun t => if t = "tok" then VerifyResult.ok (some "admin")
        else VerifyResult.fail) = false ∧
    smartSkip (some "Basic xyz")
      (fun t => if t = "tok" then VerifyResult.ok (some "admin")
        else VerifyResult.fail) = false := by
  refine ⟨?_, ?_, ?_, ?_, ?_⟩
  · exact C3_admin_exemption.1
      (fun t => if t = "tok" then VerifyResult.ok (some "admin")
        else VerifyResult.fail)
      "Bearer tok" "admin" (by decide) (by decide) (by decide) (Or.inl rfl)
  · exact C3_admin_exemption.2.1 limitersAuth
      (fun t => if t = "tok" then VerifyResult.ok (some "admin")
        else VerifyResult.fail)
      [(some "Bearer tok", 0), (some "Bearer tok", 1)] (WindowState.mk 0 0)
      (by decide)
  · exact C3_admin_exemption.2.2.1
      (fun t => if t = "tok" then VerifyResult.ok (some "admin")
        else VerifyResult.fail)
  · exact C3_admin_exemption.2.2.2.1
      (fun t => if t = "tok" then VerifyResult.ok (some "admin")
        else VerifyResult.fail)
      "Bearer bad" (by decide)
  · exact C3_admin_exemption.2.2.2.2.1
      (fun t => if t = "tok" then VerifyResult.ok (some "admin")
        else VerifyResult.fail)
      "Basic xyz" (by decide)

theorem processQueue_noop (p : Bool) (st : RequestQueue)
    (h : st.maxConcurrent ≤ st.activeRequests ∨ p = true) :
    processQueue p st = st := by
  by_cases h1 : (st.isProcessing || st.queue.isEmpty) = true
  · simp [processQueue, h1]
  · have h2 : (decide (st.maxConcurrent ≤ st.activeRequests) || p) = true := by
      rcases h with h | h <;> simp [h]
    simp [processQueue, h1, h2]

/-- C4: Every arrival other than the health-check/logout bypass paths is
admitted immediately (incrementing the active count) exactly when the active
count is below `maxConcurrent` and memory is not under pressure; otherwise it
is enqueued — admin/analytics paths at the head, all others at the tail; each
completion decrements the active count and triggers a queue drain; and the
deployed instance has `maxConcurrent = 30`. -/
theorem C4_queue_admission :
    ∀ (p : Bool) (path : String) (st : RequestQueue),
      (bypassPath path = true → qstep (QEvent.arrive p path) st = st) ∧
      (bypassPath path = false → st.activeRequests < st.maxConcurrent → p = false →
        qstep (QEvent.arrive p path) st =
          { st with activeRequests := st.activeRequests + 1 }) ∧
      (bypassPath path = false →
        (st.maxConcurrent ≤ st.activeRequests ∨ p = true) →
        isAdminReqPath path = true →
        qstep (QEvent.arrive p path) st =
          { st with
            queue := Entry.mk st.nextId true :: st.queue
            nextId := st.nextId + 1
            enqueueLog := st.enqueueLog ++ [Entry.mk st.nextId true] }) ∧
      (bypassPath path = false →
        (st.maxConcurrent ≤ st.activeRequests ∨ p = true) →
        isAdminReqPath path = false →
        qstep (QEvent.arrive p path) st =
          { st with
            queue := st.queue ++ [Entry.mk st.nextId false]
            nextId := st.nextId + 1
            enqueueLog := st.enqueueLog ++ [Entry.mk st.nextId false] }) ∧
      (qstep (QEvent.finishDirect p) st =
        processQueue p { st with activeRequests := st.activeRequests - 1 }) ∧
      (qstep (QEvent.finishQueued p) st =
        processQueue p
          { st with activeRequests := st.activeRequests - 1, isProcessing := false }) ∧
      requestQueue.maxConcurrent = 30 := by
  intro p path st
  refine ⟨?_, ?_, ?_, ?_, rfl, rfl, rfl⟩
  · intro hb; simp [qstep, hb]
  · intro hb hlt hp
    subst hp
    simp [qstep, hb, hlt]
  · intro hb hcap hadm
    have hcond : ¬ ((decide (st.activeRequests < st.maxConcurrent) && !p) = true) := by
      rcases hcap with h | h <;> simp [h]
    simp only [qstep, hb, Bool.false_eq_true, if_false, hcond, hadm]
    exact processQueue_noop p _ (by simpa using hcap)
  · intro hb hcap hadm
    have hcond : ¬ ((decide (st.activeRequests < st.maxConcurrent) && !p) = true) := by
      rcases hcap with h | h <;> simp [h]
    simp only [qstep, hb, Bool.false_eq_true, if_false, hcond, hadm]
    exact processQueue_noop p _ (by simpa using hcap)

/-- C4 witness: from the deployed queue state, a health-check arrival is a
no-op, a normal arrival with free capacity is admitted immediately, and with
pressure active an arrival is enqueued at the tail. -/
theorem C4_witness :
    qstep (QEvent.arrive false "/health") (initQ 30) = initQ 30 ∧
    qstep (QEvent.arrive false "/api/projects") (initQ 30) =
      { initQ 30 with activeRequests := 1 } ∧
    qstep (QEvent.arrive true "/api/projects") (initQ 30) =
      { initQ 30 with
        queue := [Entry.mk 0 false]
        nextId := 1
        enqueueLog := [Entry.mk 0 false] } := by
  refine ⟨(C4_queue_admission false "/health" (initQ 30)).1 (by decide),
    (C4_queue_admission false "/api/projects" (initQ 30)).2.1 (by decide)
      (by decide) rfl,
    ?_⟩
  have h := (C4_queue_admission true "/api/projects" (initQ 30)).2.2.2.1
    (by decide) (Or.inr rfl) (by decide)
  simpa using h

theorem adminsBeforeNormals_of_all_normal :
    ∀ (l : List Entry), l.all (fun x => !x.isAdmin) = true →
      adminsBeforeNormals l = true
  | [], _ => rfl
  | e :: l, h => by
    simp only [List.all_cons, Bool.and_eq_true, Bool.not_eq_true'] at h
    simp [adminsBeforeNormals, h.1, h.2]

theorem adminsBeforeNormals_tail (e : Entry) (l : List Entry)
    (h : adminsBeforeNormals (e :: l) = true) : adminsBeforeNormals l = true := by
  by_cases he : e.isAdmin = true
  · simpa [adminsBeforeNormals, he] using h
  · simp only [Bool.not_eq_true] at he
    simp only [adminsBeforeNormals, he, Bool.false_eq_true, if_false] at h
    exact adminsBeforeNormals_of_all_normal l h

theorem all_sublist {α : Type} (p : α → Bool) {l' l : List α}
    (hs : l'.Sublist l) (h : l.all p = true) : l'.all p = true := by
  rw [List.all_eq_true] at h ⊢
  exact fun x hx => h x (hs.subset hx)

theorem adminsBeforeNormals_sublist :
    ∀ {l' l : List Entry}, l'.Sublist l →
      adminsBeforeNormals l = true → adminsBeforeNormals l' = true := by
  intro l' l hs
  induction hs with
  | slnil => intro h; exact h
  | cons a hs ih =>
    intro h
    exact ih (adminsBeforeNormals_tail a _ h)
  | cons₂ a hs ih =>
    intro h
    by_cases ha : a.isAdmin = true
    · have := ih (adminsBeforeNormals_tail a _ h)
      simpa [adminsBeforeNormals, ha] using this
    · simp only [Bool.not_eq_true] at ha
      simp only [adminsBeforeNormals, ha, Bool.false_eq_true, if_false] at h ⊢
      exact all_sublist _ hs h

theorem adminsBeforeNormals_append_normal (l : List Entry) (e : Entry)
    (he : e.isAdmin = false) (h : adminsBeforeNormals l = true) :
    adminsBeforeNormals (l ++ [e]) = true := by
  induction l with
  | nil => simp [adminsBeforeNormals, he]
  | cons x l ih =>
    by_cases hx : x.isAdmin = true
    · have := ih (adminsBeforeNormals_tail x l h)
      simpa [adminsBeforeNormals, hx] using this
    · simp only [Bool.not_eq_true] at hx
      simp only [adminsBeforeNormals, hx, Bool.false_eq_true, if_false] at h
      simp only [List.cons_append, adminsBeforeNormals, hx, Bool.false_eq_true,
        if_false]
      simp [List.all_append, h, he]

theorem eraseP_id_ne (i : Nat) :
    ∀ (l : List Entry), (l.map Entry.id).Nodup →
      ∀ e ∈ l.eraseP (fun x => x.id == i), e.id ≠ i := by
  intro l
  induction l with
  | nil => intro _ e he; simp [List.eraseP] at he
  | cons x xs ih =>
    intro hnd e he
    simp only [List.map_cons, List.nodup_cons] at hnd
    by_cases hx : (x.id == i) = true
    · simp only [List.eraseP_cons, hx, cond_true] at he
      have hxi : x.id = i := by simpa using hx
      intro hei
      exact hnd.1 (List.mem_map.2 ⟨e, he, by rw [hei, hxi]⟩)
    · simp only [List.eraseP_cons, hx, cond_false, List.mem_cons] at he
      rcases he with he | he
      · subst he; simpa using hx
      · exact ih hnd.2 e he

/-- The invariant of the admission queue maintained by every event: priority
entries precede normal entries, the queue's normal entries follow enqueue
order while its priority entries are in reverse enqueue order, queued ids are
distinct, an id answered `SERVER_BUSY` is neither queued nor ever admitted,
a queued id is never already admitted, and every recorded id is below the
id counter. -/
def QInvP (st : RequestQueue) : Prop :=
  adminsBeforeNormals st.queue = true ∧
  (st.queue.filter (fun e => !e.isAdmin)).Sublist
    (st.enqueueLog.filter (fun e => !e.isAdmin)) ∧
  (st.queue.filter (fun e => e.isAdmin)).Sublist
    ((st.enqueueLog.filter (fun e => e.isAdmin)).reverse) ∧
  (st.queue.map Entry.id).Nodup ∧
  (∀ i ∈ st.busy, ∀ a ∈ st.admitLog, a.id ≠ i) ∧
  (∀ i ∈ st.busy, ∀ e ∈ st.queue, e.id ≠ i) ∧
  (∀ e ∈ st.queue, ∀ a ∈ st.admitLog, a.id ≠ e.id) ∧
  (∀ e ∈ st.queue, e.id < st.nextId) ∧
  (∀ e ∈ st.enqueueLog, e.id < st.nextId) ∧
  (∀ a ∈ st.admitLog, a.id < st.nextId) ∧
  (∀ i ∈ st.busy, i < st.nextId)

theorem processQueue_cases (p : Bool) (st : RequestQueue) :
    processQueue p st = st ∨
      ∃ e rest, st.queue = e :: rest ∧
        processQueue p st =
          { st with
            activeRequests := st.activeRequests + 1
            isProcessing := true
            queue := rest
            admitLog := st.admitLog ++ [e] } := by
  by_cases c1 : (st.isProcessing || st.queue.isEmpty) = true
  · left; simp [processQueue, c1]
  · by_cases c2 : (decide (st.maxConcurrent ≤ st.activeRequests) || p) = true
    · left; simp [processQueue, c1, c2]
    · cases hq : st.queue with
      | nil => exfalso; apply c1; simp [hq]
      | cons d rest =>
        have hip : st.isProcessing = false := by
          by_cases hip : st.isProcessing = true
          · exfalso; apply c1; simp [hip]
          · simpa using hip
        have hcap : (decide (st.maxConcurrent ≤ st.activeRequests) || p) = false := by
          simpa using c2
        right
        refine ⟨d, rest, rfl, ?_⟩
        simp [processQueue, hip, hq, hcap]

theorem QInvP_processQueue (p : Bool) (st : RequestQueue) (h : QInvP st) :
    QInvP (processQueue p st) := by
  rcases processQueue_cases p st with hres | ⟨d, rest, hq, hres⟩
  · rw [hres]; exact h
  · rw [hres]
    obtain ⟨h1, h2, h3, h4, h5, h6, h7, h8, h9, h10, h11⟩ := h
    rw [hq] at h1 h2 h3 h4 h6 h7 h8
    have hsub : rest.Sublist (d :: rest) := List.sublist_cons_self d rest
    simp only [List.map_cons, List.nodup_cons] at h4
    refine ⟨adminsBeforeNormals_tail d rest h1,
      (hsub.filter _).trans h2, (hsub.filter _).trans h3, h4.2,
      ?_, ?_, ?_, ?_, h9, ?_, h11⟩
    · intro i hi a ha
      rcases List.mem_append.1 ha with ha | ha
      · exact h5 i hi a ha
      · simp only [List.mem_singleton] at ha
        rw [ha]
        exact h6 i hi d (by simp)
    · intro i hi x hx
      exact h6 i hi x (by simp [hx])
    · intro x hx a ha
      rcases List.mem_append.1 ha with ha | ha
      · exact h7 x (by simp [hx]) a ha
      · simp only [List.mem_singleton] at ha
        rw [ha]
        intro hcontra
        exact h4.1 (by rw [hcontra]; exact List.mem_map.2 ⟨x, hx, rfl⟩)
    · intro x hx
      exact h8 x (by simp [hx])
    · intro a ha
      rcases List.mem_append.1 ha with ha | ha
      · exact h10 a ha
      · simp only [List.mem_singleton] at ha
        rw [ha]
        exact h8 d (by simp)

theorem QInvP_enqueue (st : RequestQueue) (admin : Bool) (h : QInvP st) :
    QInvP
      { st with
        queue := if admin then Entry.mk st.nextId admin :: st.queue
          else st.queue ++ [Entry.mk st.nextId admin]
        nextId := st.nextId + 1
        enqueueLog := st.enqueueLog ++ [Entry.mk st.nextId admin] } := by
  obtain ⟨h1, h2, h3, h4, h5, h6, h7, h8, h9, h10, h11⟩ := h
  have hfresh : st.nextId ∉ st.queue.map Entry.id := by
    intro hc
    rcases List.mem_map.1 hc with ⟨x, hx, hxi⟩
    exact absurd (hxi ▸ h8 x hx) (by omega)
  cases admin with
  | true =>
    refine ⟨?_, ?_, ?_, ?_, ?_, ?_, ?_, ?_, ?_, ?_, ?_⟩
    · show adminsBeforeNormals (Entry.mk st.nextId true :: st.queue) = true
      simpa [adminsBeforeNormals] using h1
    · show (List.filter (fun e => !e.isAdmin)
          (Entry.mk st.nextId true :: st.queue)).Sublist
        (List.filter (fun e => !e.isAdmin)
          (st.enqueueLog ++ [Entry.mk st.nextId true]))
      simpa [List.filter_append, List.filter] using h2
    · show (List.filter (fun e => e.isAdmin)
          (Entry.mk st.nextId true :: st.queue)).Sublist
        ((List.filter (fun e => e.isAdmin)
          (st.enqueueLog ++ [Entry.mk st.nextId true])).reverse)
      simp only [List.filter_append, List.filter_cons, List.reverse_append]
      simpa [List.filter] using h3.cons₂ (Entry.mk st.nextId true)
    · show ((Entry.mk st.nextId true :: st.queue).map Entry.id).Nodup
      exact List.nodup_cons.2 ⟨hfresh, h4⟩
    · intro i hi a ha; exact h5 i hi a ha
    · intro i hi x hx
      rcases List.mem_cons.1 hx with hx | hx
      · subst hx
        intro hxi
        have hxi' : st.nextId = i := hxi
        have := h11 i hi
        omega
      · exact h6 i hi x hx
    · intro x hx a ha
      rcases List.mem_cons.1 hx with hx | hx
      · subst hx
        intro hcontra
        have hc2 : a.id = st.nextId := hcontra
        have := h10 a ha
        omega
      · exact h7 x hx a ha
    · intro x hx
      rcases List.mem_cons.1 hx with hx | hx
      · subst hx
        exact Nat.lt_succ_self st.nextId
      · exact Nat.lt_succ_of_lt (h8 x hx)
    · intro x hx
      rcases List.mem_append.1 hx with hx | hx
      · exact Nat.lt_succ_of_lt (h9 x hx)
      · simp only [List.mem_singleton] at hx
        subst hx
        exact Nat.lt_succ_self st.nextId
    · intro a ha
      exact Nat.lt_succ_of_lt (h10 a ha)
    · intro i hi
      exact Nat.lt_succ_of_lt (h11 i hi)
  | false =>
    refine ⟨?_, ?_, ?_, ?_, ?_, ?_, ?_, ?_, ?_, ?_, ?_⟩
    · show adminsBeforeNormals (st.queue ++ [Entry.mk st.nextId false]) = true
      exact adminsBeforeNormals_append_normal st.queue _ rfl h1
    · show (List.filter (fun e => !e.isAdmin)
          (st.queue ++ [Entry.mk st.nextId false])).Sublist
        (List.filter (fun e => !e.isAdmin)
          (st.enqueueLog ++ [Entry.mk st.nextId false]))
      rw [List.filter_append, List.filter_append]
      exact h2.append (List.Sublist.refl _)
    · show (List.filter (fun e => e.isAdmin)
          (st.queue ++ [Entry.mk st.nextId false])).Sublist
        ((List.filter (fun e => e.isAdmin)
          (st.enqueueLog ++ [Entry.mk st.nextId false])).reverse)
      simpa [List.filter_append, List.filter] using h3
    · show ((st.queue ++ [Entry.mk st.nextId false]).map Entry.id).Nodup
      rw [List.map_append]
      simp only [List.map_cons, List.map_nil]
      rw [(List.perm_append_singleton _ _).nodup_iff]
      exact List.nodup_cons.2 ⟨hfresh, h4⟩
    · intro i hi a ha; exact h5 i hi a ha
    · intro i hi x hx
      rcases List.mem_append.1 hx with hx | hx
      · exact h6 i hi x hx
      · simp only [List.mem_singleton] at hx
        subst hx
        intro hxi
        have hxi' : st.nextId = i := hxi
        have := h11 i hi
        omega
    · intro x hx a ha
      rcases List.mem_append.1 hx with hx | hx
      · exact h7 x hx a ha
      · simp only [List.mem_singleton] at hx
        subst hx
        intro hcontra
        have hc2 : a.id = st.nextId := hcontra
        have := h10 a ha
        omega
    · intro x hx
      rcases List.mem_append.1 hx with hx | hx
      · exact Nat.lt_succ_of_lt (h8 x hx)
      · simp only [List.mem_singleton] at hx
        subst hx
        exact Nat.lt_succ_self st.nextId
    · intro x hx
      rcases List.mem_append.1 hx with hx | hx
      · exact Nat.lt_succ_of_lt (h9 x hx)
      · simp only [List.mem_singleton] at hx
        subst hx
        exact Nat.lt_succ_self st.nextId
    · intro a ha
      exact Nat.lt_succ_of_lt (h10 a ha)
    · intro i hi
      exact Nat.lt_succ_of_lt (h11 i hi)

theorem qstep_arrive_queued (p : Bool) (path : String) (st : RequestQueue)
    (hb : bypassPath path = false)
    (hc : (decide (st.activeRequests < st.maxConcurrent) && !p) = false) :
    qstep (QEvent.arrive p path) st =
      processQueue p
        { st with
          queue := if isAdminReqPath path then
              Entry.mk st.nextId (isAdminReqPath path) :: st.queue
            else st.queue ++ [Entry.mk st.nextId (isAdminReqPath path)]
          nextId := st.nextId + 1
          enqueueLog := st.enqueueLog ++ [Entry.mk st.nextId (isAdminReqPath path)] } := by
  simp [qstep, hb, hc]

theorem QInvP_qstep (ev : QEvent) (st : RequestQueue) (h : QInvP st) :
    QInvP (qstep ev st) := by
  match ev with
  | QEvent.arrive p path =>
    by_cases hb : bypassPath path = true
    · simpa [qstep, hb] using h
    · simp only [Bool.not_eq_true] at hb
      by_cases hc : (decide (st.activeRequests < st.maxConcurrent) && !p) = true
      · obtain ⟨h1, h2, h3, h4, h5, h6, h7, h8, h9, h10, h11⟩ := h
        simp only [qstep, hb, Bool.false_eq_true, if_false, hc, if_true]
        exact ⟨h1, h2, h3, h4, h5, h6, h7, h8, h9, h10, h11⟩
      · simp only [Bool.not_eq_true] at hc
        rw [qstep_arrive_queued p path st hb hc]
        exact QInvP_processQueue p _ (QInvP_enqueue st (isAdminReqPath path) h)
  | QEvent.finishDirect p =>
    exact QInvP_processQueue p _ h
  | QEvent.finishQueued p =>
    exact QInvP_processQueue p _ h
  | QEvent.fireTimeout p i =>
    by_cases hf : st.queue.any (fun e => e.id == i) = true
    · obtain ⟨h1, h2, h3, h4, h5, h6, h7, h8, h9, h10, h11⟩ := h
      obtain ⟨e0, he0, hei⟩ := List.any_eq_true.1 hf
      have he0i : e0.id = i := by simpa using hei
      have hsub : (st.queue.eraseP (fun x => x.id == i)).Sublist st.queue :=
        List.eraseP_sublist _
      simp only [qstep, hf, if_true]
      refine ⟨adminsBeforeNormals_sublist hsub h1,
        (hsub.filter _).trans h2, (hsub.filter _).trans h3,
        h4.sublist (hsub.map Entry.id), ?_, ?_, ?_, ?_, h9, h10, ?_⟩
      · intro j hj a ha
        rcases List.mem_append.1 hj with hj | hj
        · exact h5 j hj a ha
        · simp only [List.mem_singleton] at hj
          subst hj
          exact he0i ▸ h7 e0 he0 a ha
      · intro j hj x hx
        rcases List.mem_append.1 hj with hj | hj
        · exact h6 j hj x (hsub.subset hx)
        · simp only [List.mem_singleton] at hj
          subst hj
          exact eraseP_id_ne j st.queue h4 x hx
      · intro x hx a ha
        exact h7 x (hsub.subset hx) a ha
      · intro x hx
        exact h8 x (hsub.subset hx)
      · intro j hj
        rcases List.mem_append.1 hj with hj | hj
        · exact h11 j hj
        · simp only [List.mem_singleton] at hj
          subst hj
          exact he0i ▸ h8 e0 he0
    · simpa [qstep, hf] using h

theorem QInvP_initQ (m : Nat) : QInvP (initQ m) := by
  refine ⟨rfl, ?_, ?_, ?_, ?_, ?_, ?_, ?_, ?_, ?_, ?_⟩ <;> simp [initQ]

theorem QInvP_runFrom : ∀ (evs : List QEvent) (st : RequestQueue),
    QInvP st → QInvP (runFrom st evs)
  | [], _, h => h
  | ev :: evs, st, h => QInvP_runFrom evs (qstep ev st) (QInvP_qstep ev st h)

theorem QInvP_runQ (m : Nat) (evs : List QEvent) : QInvP (runQ m evs) :=
  QInvP_runFrom evs (initQ m) (QInvP_initQ m)

theorem busy_processQueue (p : Bool) (st : RequestQueue) :
    (processQueue p st).busy = st.busy := by
  rcases processQueue_cases p st with h | ⟨d, rest, _, h⟩ <;> rw [h]

theorem busy_mono_qstep (ev : QEvent) (st : RequestQueue) (i : Nat)
    (h : i ∈ st.busy) : i ∈ (qstep ev st).busy := by
  match ev with
  | QEvent.arrive p path =>
    by_cases hb : bypassPath path = true
    · simpa [qstep, hb] using h
    · simp only [Bool.not_eq_true] at hb
      by_cases hc : (decide (st.activeRequests < st.maxConcurrent) && !p) = true
      · simpa [qstep, hb, hc] using h
      · simp only [Bool.not_eq_true] at hc
        rw [qstep_arrive_queued p path st hb hc, busy_processQueue]
        exact h
  | QEvent.finishDirect p =>
    have heq : qstep (QEvent.finishDirect p) st =
        processQueue p { st with activeRequests := st.activeRequests - 1 } := rfl
    rw [heq, busy_processQueue]
    exact h
  | QEvent.finishQueued p =>
    have heq : qstep (QEvent.finishQueued p) st =
        processQueue p
          { st with
            activeRequests := st.activeRequests - 1
            isProcessing := false } := rfl
    rw [heq, busy_processQueue]
    exact h
  | QEvent.fireTimeout p j =>
    by_cases hf : st.queue.any (fun e => e.id == j) = true
    · simp only [qstep, hf, if_true]
      exact List.mem_append.2 (Or.inl h)
    · simpa [qstep, hf] using h

theorem busy_mono_runFrom :
    ∀ (evs : List QEvent) (st : RequestQueue) (i : Nat),
      i ∈ st.busy → i ∈ (runFrom st evs).busy
  | [], _, _, h => h
  | ev :: evs, st, i, h =>
    busy_mono_runFrom evs (qstep ev st) i (busy_mono_qstep ev st i h)

/-- C5 counterexample: two priority (admin) requests are enqueued in arrival
order `[0, 1]` but admitted in order `[1, 0]` — head insertion makes the
priority class LIFO, so admission order does not equal arrival order among
equal-priority entries. -/
theorem C5_priority_fifo_cex :
    (runQ 1 [QEvent.arrive false "/api/x", QEvent.arrive false "/api/admin/a",
      QEvent.arrive false "/api/admin/b", QEvent.finishDirect false,
      QEvent.finishQueued false]).enqueueLog.map Entry.id = [0, 1] ∧
    (runQ 1 [QEvent.arrive false "/api/x", QEvent.arrive false "/api/admin/a",
      QEvent.arrive false "/api/admin/b", QEvent.finishDirect false,
      QEvent.finishQueued false]).admitLog.map Entry.id = [1, 0] ∧
    ([1, 0] : List Nat) ≠ [0, 1] := by
  refine ⟨by decide, by decide, by decide⟩

/-- C5 (amended): in every reachable queue state, all priority
(admin/analytics) entries precede all normal entries and service always
dequeues the head, so priority entries are served before normal entries;
the normal entries stand in the queue as a subsequence of the enqueue order
(FIFO among normals), while the priority entries stand as a subsequence of
the reversed enqueue order — most recently enqueued first (LIFO), so FIFO is
not preserved among priority entries. -/
theorem C5_queue_order :
    ∀ (m : Nat) (evs : List QEvent),
      adminsBeforeNormals (runQ m evs).queue = true ∧
      ((runQ m evs).queue.filter (fun e => !e.isAdmin)).Sublist
        ((runQ m evs).enqueueLog.filter (fun e => !e.isAdmin)) ∧
      ((runQ m evs).queue.filter (fun e => e.isAdmin)).Sublist
        (((runQ m evs).enqueueLog.filter (fun e => e.isAdmin)).reverse) ∧
      (∀ (p : Bool) (st : RequestQueue),
        processQueue p st = st ∨
          ∃ e rest, st.queue = e :: rest ∧
            processQueue p st =
              { st with
                activeRequests := st.activeRequests + 1
                isProcessing := true
                queue := rest
                admitLog := st.admitLog ++ [e] }) := by
  intro m evs
  have h := QInvP_runQ m evs
  exact ⟨h.1, h.2.1, h.2.2.1, processQueue_cases⟩

/-- C6: If a queued request's timeout fires while it is still queued, the
entry is removed from the queue and its id is answered with the
`SERVER_BUSY` 503 body (the timeout is 10000 ms), and no later execution of
the step relation ever admits that id. -/
theorem C6_timeout_no_admission :
    (∀ (m : Nat) (evs : List QEvent) (p : Bool) (i : Nat),
      (runQ m evs).queue.any (fun e => e.id == i) = true →
      ((runQ m (evs ++ [QEvent.fireTimeout p i])).queue.all
          (fun e => !(e.id == i)) = true ∧
        i ∈ (runQ m (evs ++ [QEvent.fireTimeout p i])).busy)) ∧
    (∀ (m : Nat) (evs evs' : List QEvent) (i : Nat),
      i ∈ (runQ m evs).busy →
      ∀ a ∈ (runQ m (evs ++ evs')).admitLog, a.id ≠ i) ∧
    queueTimeoutMs = 10000 ∧
    serverBusyBody.status = 503 ∧
    serverBusyBody.code = "SERVER_BUSY" := by
  refine ⟨?_, ?_, rfl, rfl, rfl⟩
  · intro m evs p i hf
    have hrun : runQ m (evs ++ [QEvent.fireTimeout p i]) =
        qstep (QEvent.fireTimeout p i) (runQ m evs) := by
      unfold runQ runFrom
      rw [List.foldl_append]
      rfl
    have hinv := QInvP_runQ m evs
    rw [hrun]
    constructor
    · simp only [qstep, hf, if_true]
      rw [List.all_eq_true]
      intro e he
      have := eraseP_id_ne i (runQ m evs).queue hinv.2.2.2.1 e he
      simpa using this
    · simp only [qstep, hf, if_true]
      exact List.mem_append.2 (Or.inr (by simp))
  · intro m evs evs' i hbusy a ha
    have hrun : runQ m (evs ++ evs') = runFrom (runQ m evs) evs' := by
      unfold runQ runFrom
      rw [List.foldl_append]
    have hb : i ∈ (runFrom (runQ m evs) evs').busy :=
      busy_mono_runFrom evs' (runQ m evs) i hbusy
    have hinv : QInvP (runFrom (runQ m evs) evs') :=
      QInvP_runFrom evs' (runQ m evs) (QInvP_runQ m evs)
    rw [hrun] at ha
    exact hinv.2.2.2.2.1 i hb a ha

/-- C6 witness: with concurrency bound 1, a queued request (id 0) whose
timeout fires is marked busy, and after a later completion drains the queue,
the entry admitted from the queue (id 1) is not the timed-out id. -/
theorem C6_witness :
    (0 ∈ (runQ 1 [QEvent.arrive false "/api/x", QEvent.arrive false "/api/y",
      QEvent.arrive false "/api/z", QEvent.fireTimeout false 0]).busy ∧
      ((runQ 1 [QEvent.arrive false "/api/x", QEvent.arrive false "/api/y",
        QEvent.arrive false "/api/z", QEvent.fireTimeout false 0,
        QEvent.finishDirect false]).queue.all (fun e => !(e.id == 0))) = true) ∧
    (Entry.mk 1 false).id ≠ 0 := by
  refine ⟨⟨?_, ?_⟩, ?_⟩
  · exact (C6_timeout_no_admission.1 1
      [QEvent.arrive false "/api/x", QEvent.arrive false "/api/y",
        QEvent.arrive false "/api/z"] false 0 (by decide)).2
  · decide
  · exact C6_timeout_no_admission.2.1 1
      [QEvent.arrive false "/api/x", QEvent.arrive false "/api/y",
        QEvent.arrive false "/api/z", QEvent.fireTimeout false 0]
      [QEvent.finishDirect false] 0 (by decide) (Entry.mk 1 false) (by decide)

/-- The aggregate invariant of the analytics store state: blocked never
exceeds total in the real-time counters, in every endpoint aggregate, and in
every hourly bucket. -/
def StoreInv (st : RateLimitAnalytics) : Prop :=
  st.realTimeStats.blockedRequests ≤ st.realTimeStats.currentRequests ∧
  (∀ q ∈ st.endpoints, q.2.blocked ≤ q.2.total) ∧
  (∀ b ∈ st.hourlyStats, b.blocked ≤ b.requests)

theorem mapSet_forall {β : Type} (P : β → Prop) (k : String) (v : β)
    (hv : P v) :
    ∀ (l : List (String × β)), (∀ q ∈ l, P q.2) →
      ∀ q ∈ mapSet k v l, P q.2 := by
  intro l
  induction l with
  | nil =>
    intro _ q hq
    simp only [mapSet, List.mem_singleton] at hq
    rw [hq]
    exact hv
  | cons p rest ih =>
    intro hl q hq
    by_cases hk : p.1 = k
    · simp only [mapSet, if_pos hk, List.mem_cons] at hq
      rcases hq with hq | hq
      · rw [hq]; exact hv
      · exact hl q (by simp [hq])
    · simp only [mapSet, if_neg hk, List.mem_cons] at hq
      rcases hq with hq | hq
      · rw [hq]; exact hl p (by simp)
      · exact ih (fun r hr => hl r (by simp [hr])) q hq

theorem mapGetD_forall {β : Type} (P : β → Prop) (k : String) (d : β)
    (hd : P d) :
    ∀ (l : List (String × β)), (∀ q ∈ l, P q.2) → P (mapGetD k d l) := by
  intro l
  induction l with
  | nil => intro _; exact hd
  | cons p rest ih =>
    intro hl
    by_cases hk : p.1 = k
    · simp only [mapGetD, if_pos hk]
      exact hl p (by simp)
    · simp only [mapGetD, if_neg hk]
      exact ih (fun r hr => hl r (by simp [hr]))

theorem StoreInv_logRequest (st : RateLimitAnalytics) (now : Nat)
    (ip endpoint : String) (blocked : Bool) (ua method : String)
    (h : StoreInv st) :
    StoreInv (st.logRequest now ip endpoint blocked ua method) := by
  obtain ⟨h1, h2, h3⟩ := h
  refine ⟨?_, ?_, h3⟩
  · show st.realTimeStats.blockedRequests + (if blocked then 1 else 0) ≤
      st.realTimeStats.currentRequests + 1
    by_cases hb : blocked = true <;> simp [hb] <;> omega
  · have hprev :
        (mapGetD endpoint (EndpointStats.mk 0 0 now) st.endpoints).blocked ≤
          (mapGetD endpoint (EndpointStats.mk 0 0 now) st.endpoints).total :=
      mapGetD_forall (fun s : EndpointStats => s.blocked ≤ s.total) endpoint
        (EndpointStats.mk 0 0 now) (Nat.le_refl 0) st.endpoints h2
    refine mapSet_forall (fun s : EndpointStats => s.blocked ≤ s.total) endpoint
      _ ?_ st.endpoints h2
    show (mapGetD endpoint (EndpointStats.mk 0 0 now) st.endpoints).blocked +
        (if blocked then 1 else 0) ≤
      (mapGetD endpoint (EndpointStats.mk 0 0 now) st.endpoints).total + 1
    by_cases hb : blocked = true <;> simp [hb] <;> omega

theorem StoreInv_updateHourlyStats (st : RateLimitAnalytics) (now : Nat)
    (h : StoreInv st) : StoreInv (st.updateHourlyStats now) := by
  obtain ⟨h1, h2, h3⟩ := h
  refine ⟨h1, h2, ?_⟩
  intro b hb
  simp only [RateLimitAnalytics.updateHourlyStats] at hb
  have hb2 := (List.mem_filter.1 hb).1
  rcases List.mem_append.1 hb2 with hb3 | hb3
  · exact h3 b hb3
  · simp only [List.mem_singleton] at hb3
    rw [hb3]
    exact List.length_filter_le _ _

theorem StoreInv_cleanupOldData (st : RateLimitAnalytics) (now : Nat)
    (h : StoreInv st) : StoreInv (st.cleanupOldData now) := by
  obtain ⟨_, h2, h3⟩ := h
  exact ⟨Nat.le_refl 0, h2, h3⟩

theorem StoreInv_applyOp (st : RateLimitAnalytics) (op : StoreOp)
    (h : StoreInv st) : StoreInv (applyOp st op) := by
  match op with
  | StoreOp.log now ip endpoint blocked ua method =>
    exact StoreInv_logRequest st now ip endpoint blocked ua method h
  | StoreOp.hourly now => exact StoreInv_updateHourlyStats st now h
  | StoreOp.cleanup now => exact StoreInv_cleanupOldData st now h

theorem StoreInv_foldl :
    ∀ (ops : List StoreOp) (st : RateLimitAnalytics),
      StoreInv st → StoreInv (ops.foldl applyOp st)
  | [], _, h => h
  | op :: ops, st, h => StoreInv_foldl ops _ (StoreInv_applyOp st op h)

theorem StoreInv_runStore (ops : List StoreOp) : StoreInv (runStore ops) :=
  StoreInv_foldl ops initStore
    ⟨Nat.le_refl 0, by intro q hq; simp [initStore] at hq,
      by intro b hb; simp [initStore] at hb⟩

/-- C8: In every state reachable by store operations, and in every aggregate
the store produces — real-time counters, endpoint aggregates, hourly buckets,
the `getAnalytics` summary and its per-endpoint/hourly/real-time projections,
and `getIPAnalytics` — the blocked-request count is at most the
total-request count. -/
theorem C8_blocked_le_total :
    ∀ (ops : List StoreOp) (now : Nat) (ip endpoint : String) (i : Nat),
      (runStore ops).realTimeStats.blockedRequests ≤
        (runStore ops).realTimeStats.currentRequests ∧
      (mapGetD endpoint (EndpointStats.mk 0 0 0) (runStore ops).endpoints).blocked ≤
        (mapGetD endpoint (EndpointStats.mk 0 0 0) (runStore ops).endpoints).total ∧
      (nth (HourlyBucket.mk 0 0 0 0) (runStore ops).hourlyStats i).blocked ≤
        (nth (HourlyBucket.mk 0 0 0 0) (runStore ops).hourlyStats i).requests ∧
      ((runStore ops).getAnalytics now).summary.blockedRequests ≤
        ((runStore ops).getAnalytics now).summary.totalRequests ∧
      (nth (EndpointStatOut.mk "" 0 0 0 0)
          ((runStore ops).getAnalytics now).endpointStats i).blocked ≤
        (nth (EndpointStatOut.mk "" 0 0 0 0)
          ((runStore ops).getAnalytics now).endpointStats i).total ∧
      (nth (HourlyBucket.mk 0 0 0 0)
          ((runStore ops).getAnalytics now).hourlyStats i).blocked ≤
        (nth (HourlyBucket.mk 0 0 0 0)
          ((runStore ops).getAnalytics now).hourlyStats i).requests ∧
      ((runStore ops).getAnalytics now).realTimeBlocked ≤
        ((runStore ops).getAnalytics now).realTimeCurrent ∧
      ((runStore ops).getIPAnalytics ip).blockedRequests ≤
        ((runStore ops).getIPAnalytics ip).totalRequests := by
  intro ops now ip endpoint i
  obtain ⟨h1, h2, h3⟩ := StoreInv_runStore ops
  refine ⟨h1, ?_, ?_, ?_, ?_, ?_, h1, ?_⟩
  · exact mapGetD_forall (fun s : EndpointStats => s.blocked ≤ s.total) endpoint
      (EndpointStats.mk 0 0 0) (Nat.le_refl 0) (runStore ops).endpoints h2
  · exact nth_pred (fun b : HourlyBucket => b.blocked ≤ b.requests)
      (HourlyBucket.mk 0 0 0 0) (Nat.le_refl 0) (runStore ops).hourlyStats i h3
  · simp only [RateLimitAnalytics.getAnalytics]
    exact List.length_filter_le _ _
  · have hall : ∀ x ∈ ((runStore ops).getAnalytics now).endpointStats,
        x.blocked ≤ x.total := by
      intro x hx
      simp only [RateLimitAnalytics.getAnalytics] at hx
      rcases List.mem_map.1 hx with ⟨q, hq, hxq⟩
      have hq2 : q ∈ sortByDesc (fun p => p.2.total) (runStore ops).endpoints :=
        List.take_subset _ _ hq
      have hq3 := mem_sortByDesc _ q _ hq2
      have hle := h2 q hq3
      rw [← hxq]
      simpa using hle
    exact nth_pred (fun x : EndpointStatOut => x.blocked ≤ x.total)
      (EndpointStatOut.mk "" 0 0 0 0) (Nat.le_refl 0) _ i hall
  · have heq : ((runStore ops).getAnalytics now).hourlyStats =
        (runStore ops).hourlyStats := by
      simp [RateLimitAnalytics.getAnalytics]
    rw [heq]
    exact nth_pred (fun b : HourlyBucket => b.blocked ≤ b.requests)
      (HourlyBucket.mk 0 0 0 0) (Nat.le_refl 0) (runStore ops).hourlyStats i h3
  · simp only [RateLimitAnalytics.getIPAnalytics]
    exact List.length_filter_le _ _
